import Mathlib

/-!
# Verification of the 4Runner document ingestion and retrieval core

Shallow embedding of the document ingestion and semantic search pipeline of the
4Runner (DriveIQ) vehicle-management application, together with the CarfaxImport
frontend component, and proofs of the specification claims about them.

The repository ships the persisted schema
(`backend/migrations/update_document_chunks.sql`) and the CarfaxImport React
component (`frontend/src/components/CarfaxImport.tsx`); the Vector Store,
Retriever, Chunker and Answer Synthesizer implementations are not part of the
source tree, so they are modelled here from the specification, as marked on each
definition.
-/

/-! ## Vectors and similarity -/

/-- Dot product of two rational vectors; coordinates beyond the shorter vector
are ignored (they contribute 0). -/
def dot (a b : List ℚ) : ℚ := (List.zipWith (· * ·) a b).sum

/-- Squared Euclidean norm of a rational vector. -/
def normSq (a : List ℚ) : ℚ := dot a a

/-- Cosine similarity between a query vector and an embedding, as specified for
`search` (pgvector's `vector_cosine_ops`).  Stated over the reals; by Lean's
convention a zero denominator (zero vector) yields 0. -/
noncomputable def cosineSim (q e : List ℚ) : ℝ :=
  (dot q e : ℝ) / (Real.sqrt (normSq q) * Real.sqrt (normSq e))

/-- Executable, purely rational sort key for descending-similarity ranking:
`sign(dot q e) * (dot q e)^2 / normSq e`.  For a fixed query `q` this is a
strictly monotone transform of `cosineSim q e` (theorem
`simKey_le_iff_cosineSim_le`), so ordering by it is ordering by cosine
similarity, while staying decidable. -/
def simKey (q e : List ℚ) : ℚ :=
  let s := dot q e
  let n := normSq e
  if n = 0 then 0 else if 0 ≤ s then s ^ 2 / n else -(s ^ 2 / n)

/-! ## Data model

The persisted chunk row follows the `document_chunks` schema of
`backend/migrations/update_document_chunks.sql`:
`id, document_name, document_type, chunk_index, content, page_number,
embedding vector(384), chapter, section, topics, tokens, created_at`.
`id` and `created_at` are store-assigned on insertion; a nullable `embedding`
models a chunk whose embedding generation failed. -/

/-- The chunk fields supplied by the ingestion pipeline to the Vector Store.
`documentName` is the upsert key and is attached by the store; `id` and
`createdAt` are assigned by the store on insertion. -/
structure ChunkData where
  documentType : Option String
  chunkIndex : Nat
  content : String
  pageNumber : Option Nat
  embedding : Option (List ℚ)
  chapter : Option String
  «section» : Option String
  topics : List String
  tokens : Option Nat
  deriving Repr, DecidableEq

/-- A persisted row of the `document_chunks` table. -/
structure Chunk where
  id : Nat
  documentName : String
  documentType : Option String
  chunkIndex : Nat
  content : String
  pageNumber : Option Nat
  embedding : Option (List ℚ)
  chapter : Option String
  «section» : Option String
  topics : List String
  tokens : Option Nat
  createdAt : Nat
  deriving Repr, DecidableEq

/-- Projection of a stored row back onto the pipeline-supplied fields (drops the
store-assigned `id`, `documentName` and `createdAt`). -/
def Chunk.data (c : Chunk) : ChunkData :=
  { documentType := c.documentType, chunkIndex := c.chunkIndex, content := c.content,
    pageNumber := c.pageNumber, embedding := c.embedding, chapter := c.chapter,
    «section» := c.«section», topics := c.topics, tokens := c.tokens }

/-- The Vector Store state: the `document_chunks` rows plus the `SERIAL`
id sequence and a logical clock stamping `created_at`. -/
structure Store where
  nextId : Nat
  clock : Nat
  rows : List Chunk
  deriving Repr, DecidableEq

def emptyStore : Store := { nextId := 0, clock := 0, rows := [] }

/-- Materialise the new rows of an upsert: sequential `id`s from the store's
sequence, `documentName` from the upsert key, `createdAt` from the clock. -/
def mkRows (documentName : String) (nextId createdAt : Nat) (cs : List ChunkData) :
    List Chunk :=
  cs.enum.map fun p =>
    { id := nextId + p.1, documentName := documentName, documentType := p.2.documentType,
      chunkIndex := p.2.chunkIndex, content := p.2.content, pageNumber := p.2.pageNumber,
      embedding := p.2.embedding, chapter := p.2.chapter, «section» := p.2.«section»,
      topics := p.2.topics, tokens := p.2.tokens, createdAt := createdAt }

/-- Modelled from the spec: `upsertChunks(documentName, chunks)` — the Vector
Store implementation is not in the source tree; per the spec it "transactionally
deletes all existing chunks for `documentName`, then inserts the new set"
(scoped delete-and-insert keyed by `documentName`). -/
def upsertChunks (s : Store) (documentName : String) (cs : List ChunkData) : Store :=
  { nextId := s.nextId + cs.length
    clock := s.clock + 1
    rows := s.rows.filter (fun c => c.documentName ≠ documentName)
      ++ mkRows documentName s.nextId s.clock cs }

/-- The chunks stored for one document, in storage order. -/
def docChunks (s : Store) (documentName : String) : List Chunk :=
  s.rows.filter (fun c => c.documentName = documentName)

inductive StoreError where
  | transactionFailed
  deriving Repr, DecidableEq

/-- The primitive row-level steps of one upsert transaction: first the scoped
delete of the document's rows, then one insert per new row. -/
def upsertSteps (s : Store) (documentName : String) (cs : List ChunkData) :
    List (List Chunk → List Chunk) :=
  (fun rows => rows.filter (fun c => c.documentName ≠ documentName))
    :: (mkRows documentName s.nextId s.clock cs).map (fun r rows => rows ++ [r])

/-- Modelled from the spec: the upsert runs inside a database transaction.
`failAfter = some k` with `k` short of the step count simulates a failure after
the first `k` steps have run on the transaction's working state (e.g. after the
delete, before the insert completes); an uncommitted transaction rolls back, so
the store visible to subsequent reads is the pre-upsert store.  Only a
transaction that executes every step commits. -/
def runUpsertTx (s : Store) (documentName : String) (cs : List ChunkData)
    (failAfter : Option Nat) : Store × Option StoreError :=
  let steps := upsertSteps s documentName cs
  let committed : Store :=
    { nextId := s.nextId + cs.length
      clock := s.clock + 1
      rows := steps.foldl (fun rows f => f rows) s.rows }
  match failAfter with
  | some k => if k < steps.length then (s, some .transactionFailed) else (committed, none)
  | none => (committed, none)

/-! ## Similarity search -/

/-- Optional conjunctive metadata filters of `search`. -/
structure Filters where
  topics : Option (List String)
  chapter : Option String
  documentType : Option String
  deriving Repr, DecidableEq

/-- Modelled from the spec: a chunk satisfies the given filters when every
given constraint holds — each requested topic is among the chunk's topics, and
the chapter / document type match when requested. -/
def matchesFilters (filters : Filters) (c : Chunk) : Bool :=
  (match filters.topics with
    | none => true
    | some ts => ts.all fun t => c.topics.contains t)
  && (match filters.chapter with
    | none => true
    | some ch => c.chapter == some ch)
  && (match filters.documentType with
    | none => true
    | some dt => c.documentType == some dt)

/-- Sort key of a stored chunk (chunks without an embedding are filtered out
before ranking; `getD []` only supplies a dummy for totality). -/
def chunkKey (q : List ℚ) (c : Chunk) : ℚ := simKey q (c.embedding.getD [])

/-- Decidable ranking relation of `search`: higher similarity key first, ties
broken by lower `chunkIndex`, then lower `id`. -/
def searchRank (q : List ℚ) (a b : Chunk) : Bool :=
  decide (chunkKey q b < chunkKey q a
    ∨ (chunkKey q a = chunkKey q b
        ∧ (a.chunkIndex < b.chunkIndex
            ∨ (a.chunkIndex = b.chunkIndex ∧ a.id ≤ b.id))))

/-- Modelled from the spec: `search(queryVector, filters, topK)` — restrict to
chunks that have an embedding and satisfy the filters, rank by descending cosine
similarity with the `chunkIndex`-then-`id` tie-break, and return the first
`topK`.  As a pure function of the store and the arguments, repeated calls on an
unchanged store return the same ordering. -/
def search (s : Store) (queryVector : List ℚ) (filters : Filters) (topK : Nat) :
    List Chunk :=
  ((s.rows.filter fun c => c.embedding.isSome && matchesFilters filters c).mergeSort
    (searchRank queryVector)).take topK

/-- The ranking relation of the specification, stated with real cosine
similarity: strictly greater similarity first, equal similarity resolved by
lower `chunkIndex`, then lower `id`. -/
def cosRank (q : List ℚ) (a b : Chunk) : Prop :=
  cosineSim q (b.embedding.getD []) < cosineSim q (a.embedding.getD [])
  ∨ (cosineSim q (a.embedding.getD []) = cosineSim q (b.embedding.getD [])
      ∧ (a.chunkIndex < b.chunkIndex ∨ (a.chunkIndex = b.chunkIndex ∧ a.id ≤ b.id)))

/-! ## Ingestion pipeline -/

/-- Modelled from the spec: the Chunker splits text into overlapping windows of
at most `windowSize` characters whose start positions advance by
`windowSize - overlap` (at least 1).  Empty text yields zero chunks; text no
longer than one window yields exactly one chunk. -/
def chunkText (windowSize overlap : Nat) (text : List Char) : List (List Char) :=
  let step := max 1 (windowSize - overlap)
  let count :=
    if text.length = 0 then 0
    else (text.length - min text.length windowSize + step - 1) / step + 1
  (List.range count).map fun i => (text.drop (i * step)).take windowSize

/-- Structural metadata attached to a chunk by the tagging heuristics. -/
structure ChunkMeta where
  chapter : Option String
  «section» : Option String
  pageNumber : Option Nat
  topics : List String

/-- External collaborators and configuration of the ingestion pipeline.  The
embedding provider and the heading/topic tagging heuristics are external to the
retrieval core, so they are parameters of the model; `embed` returning `none`
models a chunk whose embedding failed after the bounded retries. -/
structure PipelineCfg where
  windowSize : Nat
  overlap : Nat
  embed : List Char → Option (List ℚ)
  meta : Nat → List Char → ChunkMeta

/-- Modelled from the spec: the chunk → embed → tag stage of ingestion.  Each
chunk receives the zero-based `chunkIndex` equal to its position, the document's
type, its embedding from the Embedder, and metadata from the tagging
heuristics; `tokens` records the approximate size of the content. -/
def pipelineChunks (cfg : PipelineCfg) (documentType : Option String)
    (text : List Char) : List ChunkData :=
  (chunkText cfg.windowSize cfg.overlap text).enum.map fun p =>
    { documentType := documentType
      chunkIndex := p.1
      content := String.mk p.2
      pageNumber := (cfg.meta p.1 p.2).pageNumber
      embedding := cfg.embed p.2
      chapter := (cfg.meta p.1 p.2).chapter
      «section» := (cfg.meta p.1 p.2).«section»
      topics := (cfg.meta p.1 p.2).topics
      tokens := some p.2.length }

/-- A source document presented to the ingestion trigger. -/
structure Document where
  name : String
  dtype : Option String
  text : List Char

/-- Modelled from the spec: ingesting a document runs the pipeline and upserts
the resulting chunk set under the document's name. -/
def ingest (cfg : PipelineCfg) (s : Store) (doc : Document) : Store :=
  upsertChunks s doc.name (pipelineChunks cfg doc.dtype doc.text)

/-- Modelled from the spec: the stores reachable from the empty store by
ingesting documents through the pipeline. -/
inductive Reachable : Store → Prop where
  | empty : Reachable emptyStore
  | step : ∀ (cfg : PipelineCfg) (doc : Document) (s : Store),
      Reachable s → Reachable (ingest cfg s doc)

/-! ## Retriever and Answer Synthesizer -/

/-- Modelled from the spec: the explicit response produced when retrieval finds
nothing. -/
def noRelevantInfoResponse : String := "no relevant information found"

structure AskResponse where
  answer : String
  sources : List (String × Option Nat)
  deriving Repr, DecidableEq

inductive AskError where
  | retrievalUnavailable
  deriving Repr, DecidableEq

/-- Modelled from the spec: keep ranked chunks, highest-ranked first, while the
total content length fits the context budget (lowest-ranked are dropped first). -/
def fitChunks (maxContext : Nat) : List Chunk → Nat → List Chunk
  | [], _ => []
  | c :: cs, used =>
    if used + c.content.length ≤ maxContext then
      c :: fitChunks maxContext cs (used + c.content.length)
    else []

/-- Modelled from the spec: the grounded prompt — the query followed by each
kept chunk's content with its source attribution (document name, page). -/
def buildPrompt (query : String) (chunks : List Chunk) : String :=
  chunks.foldl
    (fun acc c =>
      acc ++ "[" ++ c.documentName
        ++ (match c.pageNumber with
            | none => ""
            | some p => ", p. " ++ toString p)
        ++ "] " ++ c.content ++ "\n")
    ("Question: " ++ query ++ "\nContext:\n")

/-- Modelled from the spec: the Answer Synthesizer.  Zero retrieved chunks
produce the explicit no-information response; otherwise the external LLM is
called on the grounded prompt and the chunks actually used are cited. -/
def synthesize (llm : String → String) (maxContext : Nat) (query : String)
    (chunks : List Chunk) : AskResponse :=
  if chunks.isEmpty then { answer := noRelevantInfoResponse, sources := [] }
  else
    let used := fitChunks maxContext chunks 0
    { answer := llm (buildPrompt query used)
      sources := used.map fun c => (c.documentName, c.pageNumber) }

/-- Modelled from the spec: the ask endpoint — embed the query (a failed query
embedding surfaces as `retrievalUnavailable`), retrieve via `search`, and
synthesize the answer. -/
def ask (embedQuery : String → Option (List ℚ)) (llm : String → String)
    (maxContext : Nat) (s : Store) (query : String) (filters : Filters)
    (topK : Nat) : Except AskError AskResponse :=
  match embedQuery query with
  | none => .error .retrievalUnavailable
  | some qv => .ok (synthesize llm maxContext query (search s qv filters topK))

/-! ## CarfaxImport component (frontend/src/components/CarfaxImport.tsx) -/

/-- The `ImportResult` payload of a successful `/api/import/carfax` response. -/
structure ImportResult where
  message : String
  vehicle : String
  vin : String
  retail_value : Int
  total_records : Int
  imported_records : Int
  owners : Int
  accidents : Int
  cpo_status : Option String
  last_odometer : Option Int
  annual_miles : Option Int
  no_accidents : Bool
  single_owner : Bool
  deriving Repr, DecidableEq

/-- The component's state: the `importResult` and `error` `useState` cells and
the file input's value. -/
structure CarfaxState where
  importResult : Option ImportResult
  error : Option String
  fileInputValue : String
  deriving Repr, DecidableEq

/-- A file picked in the file input (only its name matters to the handler). -/
structure SelectedFile where
  name : String
  deriving Repr, DecidableEq

/-- `file.name.toLowerCase().endsWith('.pdf')` of the component, embedded at the
character level: lowercase every character, then test for the `.pdf` suffix. -/
def isPdfFileName (name : String) : Bool :=
  ".pdf".data.isSuffixOf (name.data.map Char.toLower)

/-- `handleFileSelect`: the state transition of selecting a file.  The second
component is the file handed to `importMutation.mutate` — `none` means that no
request is issued to the import endpoint. -/
def handleFileSelect (st : CarfaxState) (selected : Option SelectedFile) :
    CarfaxState × Option SelectedFile :=
  match selected with
  | none => (st, none)
  | some f =>
    if !isPdfFileName f.name then
      ({ st with error := some "Please select a PDF file" }, none)
    else
      ({ st with error := none, importResult := none }, some f)

/-- The mutation's `onSuccess` handler: set the result, clear the error, clear
the file input. -/
def onImportSuccess (st : CarfaxState) (data : ImportResult) : CarfaxState :=
  { st with importResult := some data, error := none, fileInputValue := "" }

/-- The mutation's `onError` handler: set the error message, clear the result. -/
def onImportError (st : CarfaxState) (message : String) : CarfaxState :=
  { st with error := some message, importResult := none }

/-- A completed import mutation settles into exactly one of the two handlers. -/
def completeImportMutation (st : CarfaxState) (outcome : Except String ImportResult) :
    CarfaxState :=
  match outcome with
  | .ok data => onImportSuccess st data
  | .error message => onImportError st message

/-! ## Concrete fixtures used by witness theorems -/

/-- Empty filter set. -/
def noFilters : Filters := { topics := none, chapter := none, documentType := none }

/-- A stored chunk about the engine, with an embedding. -/
def wcEngine : Chunk :=
  { id := 1, documentName := "manual", documentType := some "manual",
    chunkIndex := 0, content := "engine oil capacity", pageNumber := some 3,
    embedding := some [1, 0], chapter := some "Maintenance", «section» := none,
    topics := ["engine"], tokens := some 3, createdAt := 0 }

/-- A stored chunk whose embedding generation failed. -/
def wcNoEmbedding : Chunk :=
  { wcEngine with id := 2, chunkIndex := 1, embedding := none, topics := ["brakes"] }

/-- A stored chunk about tires, with an embedding. -/
def wcTires : Chunk :=
  { wcEngine with id := 3, chunkIndex := 2, embedding := some [0, 1], topics := ["tires"] }

/-- A small concrete store holding the three chunks above. -/
def wStore : Store := { nextId := 4, clock := 1, rows := [wcEngine, wcNoEmbedding, wcTires] }

/-- A concrete pipeline configuration with a constant external embedder and
trivial tagging heuristics. -/
def wCfg : PipelineCfg :=
  { windowSize := 100, overlap := 20,
    embed := fun _ => some [1],
    meta := fun _ _ => { chapter := none, «section» := none, pageNumber := none, topics := [] } }

/-- A concrete document. -/
def wDoc : Document := { name := "manual", dtype := some "manual", text := "hello world".data }

/-- A store in which exactly one chunk has an embedding. -/
def wStore2 : Store := { nextId := 3, clock := 1, rows := [wcEngine, wcNoEmbedding] }

/-- The topic filter of the specification's filter-correctness scenario. -/
def engineFilters : Filters := { topics := some ["engine"], chapter := none, documentType := none }

/-- A concrete import payload. -/
def wImport : ImportResult :=
  { message := "CARFAX report imported", vehicle := "2018 Toyota 4Runner",
    vin := "JTEBU5JR2J5517128", retail_value := 30000, total_records := 10,
    imported_records := 10, owners := 1, accidents := 0, cpo_status := none,
    last_odometer := some 120000, annual_miles := some 12000,
    no_accidents := true, single_owner := true }

/-! ## Vector lemmas -/

theorem normSq_cons (x : ℚ) (xs : List ℚ) : normSq (x :: xs) = x * x + normSq xs := by
  simp [normSq, dot]

theorem normSq_nonneg (a : List ℚ) : 0 ≤ normSq a := by
  induction a with
  | nil => simp [normSq, dot]
  | cons x xs ih =>
    rw [normSq_cons]
    have hx := mul_self_nonneg x
    linarith

theorem dot_eq_zero_right : ∀ (q e : List ℚ), normSq e = 0 → dot q e = 0 := by
  intro q e
  induction e generalizing q with
  | nil => intro _; cases q <;> simp [dot]
  | cons x xs ih =>
    intro h
    rw [normSq_cons] at h
    have hx2 := mul_self_nonneg x
    have hxs := normSq_nonneg xs
    have hx : x = 0 := by
      have : x * x = 0 := by linarith
      exact mul_self_eq_zero.mp this
    have hrest : normSq xs = 0 := by linarith
    cases q with
    | nil => simp [dot]
    | cons y ys =>
      have : dot (y :: ys) (x :: xs) = y * x + dot ys xs := by simp [dot]
      rw [this, ih ys hrest, hx]
      ring

theorem dot_comm : ∀ (a b : List ℚ), dot a b = dot b a := by
  intro a
  induction a with
  | nil => intro b; cases b <;> simp [dot]
  | cons x xs ih =>
    intro b
    cases b with
    | nil => simp [dot]
    | cons y ys =>
      have h1 : dot (x :: xs) (y :: ys) = x * y + dot xs ys := by simp [dot]
      have h2 : dot (y :: ys) (x :: xs) = y * x + dot ys xs := by simp [dot]
      rw [h1, h2, ih ys, mul_comm]

theorem dot_eq_zero_left (q e : List ℚ) (h : normSq q = 0) : dot q e = 0 := by
  rw [dot_comm]
  exact dot_eq_zero_right e q h

/-- `x ↦ x * |x|` is order-reflecting and order-preserving on the reals. -/
theorem mul_abs_le_mul_abs_iff (x y : ℝ) : x * |x| ≤ y * |y| ↔ x ≤ y := by
  constructor
  · intro h
    by_contra hlt
    push_neg at hlt
    rcases abs_cases x with ⟨hx, hx0⟩ | ⟨hx, hx0⟩ <;>
      rcases abs_cases y with ⟨hy, hy0⟩ | ⟨hy, hy0⟩ <;>
        rw [hx, hy] at h <;> nlinarith
  · intro h
    rcases abs_cases x with ⟨hx, hx0⟩ | ⟨hx, hx0⟩ <;>
      rcases abs_cases y with ⟨hy, hy0⟩ | ⟨hy, hy0⟩ <;>
        rw [hx, hy] <;> nlinarith

/-- The rational sort key, viewed in the reals, is `t * |t|` for
`t = dot q e / ‖e‖`. -/
theorem simKey_cast (q e : List ℚ) :
    (simKey q e : ℝ)
      = ((dot q e : ℝ) / Real.sqrt (normSq e)) * |(dot q e : ℝ) / Real.sqrt (normSq e)| := by
  by_cases hn : normSq e = 0
  · simp [simKey, hn]
  · have hn0 : 0 < normSq e := lt_of_le_of_ne (normSq_nonneg e) (Ne.symm hn)
    have hnr : (0 : ℝ) < (normSq e : ℝ) := by exact_mod_cast hn0
    have hs : 0 < Real.sqrt (normSq e) := Real.sqrt_pos.mpr hnr
    have hss : Real.sqrt (normSq e) * Real.sqrt (normSq e) = (normSq e : ℝ) :=
      Real.mul_self_sqrt hnr.le
    rw [abs_div, abs_of_pos hs, div_mul_div_comm, hss]
    by_cases hpos : 0 ≤ dot q e
    · have habs : |(dot q e : ℝ)| = (dot q e : ℝ) := abs_of_nonneg (by exact_mod_cast hpos)
      rw [habs]
      simp only [simKey, hn, hpos, if_false, if_true]
      push_cast
      ring
    · have hneg : dot q e < 0 := lt_of_not_ge hpos
      have habs : |(dot q e : ℝ)| = -(dot q e : ℝ) := abs_of_neg (by exact_mod_cast hneg)
      rw [habs]
      simp only [simKey, hn, hpos, if_false]
      push_cast
      ring

/-- Bridge: comparing the executable sort keys is comparing cosine similarities. -/
theorem simKey_le_iff_cosineSim_le (q a b : List ℚ) :
    simKey q a ≤ simKey q b ↔ cosineSim q a ≤ cosineSim q b := by
  by_cases hq : normSq q = 0
  · have ha : dot q a = 0 := dot_eq_zero_left q a hq
    have hb : dot q b = 0 := dot_eq_zero_left q b hq
    simp [simKey, cosineSim, ha, hb]
  · have hq0 : 0 < normSq q := lt_of_le_of_ne (normSq_nonneg q) (Ne.symm hq)
    have hqr : (0 : ℝ) < (normSq q : ℝ) := by exact_mod_cast hq0
    have hsq : 0 < Real.sqrt (normSq q) := Real.sqrt_pos.mpr hqr
    have key : ∀ e : List ℚ,
        cosineSim q e = ((dot q e : ℝ) / Real.sqrt (normSq e)) / Real.sqrt (normSq q) := by
      intro e
      rw [cosineSim, mul_comm, div_div]
    rw [key a, key b, div_le_div_iff_of_pos_right hsq,
      ← mul_abs_le_mul_abs_iff, ← simKey_cast q a, ← simKey_cast q b]
    exact_mod_cast Iff.rfl

theorem simKey_lt_iff_cosineSim_lt (q a b : List ℚ) :
    simKey q a < simKey q b ↔ cosineSim q a < cosineSim q b := by
  rw [← not_le, ← not_le, not_iff_not]
  exact simKey_le_iff_cosineSim_le q b a

theorem simKey_eq_imp_cosineSim_eq {q a b : List ℚ} (h : simKey q a = simKey q b) :
    cosineSim q a = cosineSim q b :=
  le_antisymm ((simKey_le_iff_cosineSim_le q a b).mp h.le)
    ((simKey_le_iff_cosineSim_le q b a).mp h.ge)

/-! ## Ranking lemmas -/

theorem searchRank_total (q : List ℚ) (a b : Chunk) :
    searchRank q a b || searchRank q b a := by
  simp only [searchRank, Bool.or_eq_true, decide_eq_true_eq]
  rcases lt_trichotomy (chunkKey q a) (chunkKey q b) with h | h | h
  · exact Or.inr (Or.inl h)
  · by_cases hi : a.chunkIndex = b.chunkIndex
    · by_cases hid : a.id ≤ b.id
      · exact Or.inl (Or.inr ⟨h, Or.inr ⟨hi, hid⟩⟩)
      · exact Or.inr (Or.inr ⟨h.symm, Or.inr ⟨hi.symm, by omega⟩⟩)
    · by_cases hlt : a.chunkIndex < b.chunkIndex
      · exact Or.inl (Or.inr ⟨h, Or.inl hlt⟩)
      · exact Or.inr (Or.inr ⟨h.symm, Or.inl (by omega)⟩)
  · exact Or.inl (Or.inl h)

theorem searchRank_trans (q : List ℚ) (a b c : Chunk)
    (hab : searchRank q a b) (hbc : searchRank q b c) : searchRank q a c := by
  simp only [searchRank, decide_eq_true_eq] at hab hbc ⊢
  rcases hab with hab | ⟨hab, tab⟩
  · rcases hbc with hbc | ⟨hbc, _⟩
    · exact Or.inl (lt_trans hbc hab)
    · exact Or.inl (hbc ▸ hab)
  · rcases hbc with hbc | ⟨hbc, tbc⟩
    · exact Or.inl (lt_of_lt_of_le hbc hab.ge)
    · refine Or.inr ⟨hab.trans hbc, ?_⟩
      rcases tab with tab | ⟨tab, iab⟩ <;> rcases tbc with tbc | ⟨tbc, ibc⟩
      · exact Or.inl (by omega)
      · exact Or.inl (by omega)
      · exact Or.inl (by omega)
      · exact Or.inr ⟨by omega, by omega⟩

theorem searchRank_imp_cosRank {q : List ℚ} {a b : Chunk}
    (h : searchRank q a b) : cosRank q a b := by
  simp only [searchRank, decide_eq_true_eq] at h
  rcases h with h | ⟨h, t⟩
  · exact Or.inl ((simKey_lt_iff_cosineSim_lt q _ _).mp h)
  · exact Or.inr ⟨simKey_eq_imp_cosineSim_eq h, t⟩

/-! ## Store lemmas -/

theorem foldl_append_singletons (rs rows : List Chunk) :
    (rs.map (fun r rows => rows ++ [r])).foldl (fun acc f => f acc) rows = rows ++ rs := by
  induction rs generalizing rows with
  | nil => simp
  | cons r rs ih => simp [ih]

/-- A transaction that runs to completion is exactly `upsertChunks`. -/
theorem runUpsertTx_complete (s : Store) (d : String) (cs : List ChunkData) :
    runUpsertTx s d cs none = (upsertChunks s d cs, none) := by
  simp [runUpsertTx, upsertSteps, upsertChunks, foldl_append_singletons]

theorem mkRows_documentName (d : String) (n t : Nat) (cs : List ChunkData) :
    ∀ c ∈ mkRows d n t cs, c.documentName = d := by
  intro c hc
  simp only [mkRows, List.mem_map] at hc
  obtain ⟨p, _, rfl⟩ := hc
  rfl

theorem mkRows_map_data (d : String) (n t : Nat) (cs : List ChunkData) :
    (mkRows d n t cs).map Chunk.data = cs := by
  have h : (mkRows d n t cs).map Chunk.data = cs.enum.map Prod.snd := by
    simp only [mkRows, List.map_map]
    apply List.map_congr_left
    intro p _
    rfl
  rw [h, List.enum_map_snd]

theorem mkRows_map_chunkIndex (d : String) (n t : Nat) (cs : List ChunkData) :
    (mkRows d n t cs).map (fun c => c.chunkIndex) = cs.map (fun cd => cd.chunkIndex) := by
  have h : (mkRows d n t cs).map (fun c => c.chunkIndex)
      = cs.enum.map (fun p => p.2.chunkIndex) := by
    simp only [mkRows, List.map_map]
    apply List.map_congr_left
    intro p _
    rfl
  have h2 : cs.enum.map (fun p => p.2.chunkIndex)
      = (cs.enum.map Prod.snd).map (fun cd => cd.chunkIndex) := by
    rw [List.map_map]
    rfl
  rw [h, h2, List.enum_map_snd]

/-- After an upsert, the document's stored chunks are exactly the freshly
inserted rows. -/
theorem docChunks_upsert_self (s : Store) (d : String) (cs : List ChunkData) :
    docChunks (upsertChunks s d cs) d = mkRows d s.nextId s.clock cs := by
  unfold docChunks upsertChunks
  rw [List.filter_append]
  have h1 : List.filter (fun c => decide (c.documentName = d))
      (List.filter (fun c => decide (c.documentName ≠ d)) s.rows) = [] := by
    rw [List.filter_eq_nil_iff]
    intro c hc
    rw [List.mem_filter] at hc
    simp only [decide_eq_true_eq] at hc ⊢
    exact hc.2
  have h2 : (mkRows d s.nextId s.clock cs).filter (fun c => decide (c.documentName = d))
      = mkRows d s.nextId s.clock cs := by
    rw [List.filter_eq_self]
    intro c hc
    simp only [decide_eq_true_eq]
    exact mkRows_documentName d s.nextId s.clock cs c hc
  rw [h1, h2, List.nil_append]

theorem pipelineChunks_map_chunkIndex (cfg : PipelineCfg) (dt : Option String)
    (text : List Char) :
    (pipelineChunks cfg dt text).map (fun cd => cd.chunkIndex)
      = List.range (chunkText cfg.windowSize cfg.overlap text).length := by
  have h : (pipelineChunks cfg dt text).map (fun cd => cd.chunkIndex)
      = (chunkText cfg.windowSize cfg.overlap text).enum.map Prod.fst := by
    simp only [pipelineChunks, List.map_map]
    apply List.map_congr_left
    intro p _
    rfl
  rw [h, List.enum_map_fst]

theorem mkRows_map_key (d : String) (n t : Nat) (cs : List ChunkData) :
    (mkRows d n t cs).map (fun c => (c.documentName, c.chunkIndex))
      = (cs.map (fun cd => cd.chunkIndex)).map (fun i => (d, i)) := by
  have e1 : (mkRows d n t cs).map (fun c => (c.documentName, c.chunkIndex))
      = cs.enum.map (fun p => (d, p.2.chunkIndex)) := by
    simp only [mkRows, List.map_map]
    apply List.map_congr_left
    intro p _
    rfl
  have e2 : cs.enum.map (fun p => (d, p.2.chunkIndex))
      = (cs.enum.map Prod.snd).map (fun cd => (d, cd.chunkIndex)) := by
    rw [List.map_map]
    rfl
  rw [e1, e2, List.enum_map_snd, List.map_map]
  rfl

/-! ## Claim theorems -/

/-- Claim C1 (atomicity of `upsertChunks`): for every store, document name,
chunk set and simulated failure point, the transactional upsert either runs to
completion — yielding exactly `upsertChunks` — or fails and rolls back, in which
case the store seen by any subsequent read is the pre-upsert store, so reading
the document's chunks returns the pre-upsert set.  A failure strictly before the
last step (in particular after the delete, before the insert completes) always
takes the second branch. -/
theorem upsert_atomic (s : Store) (d : String) (cs : List ChunkData)
    (failAfter : Option Nat) :
    runUpsertTx s d cs failAfter = (upsertChunks s d cs, none)
    ∨ ((runUpsertTx s d cs failAfter).1 = s
        ∧ (runUpsertTx s d cs failAfter).2 = some StoreError.transactionFailed
        ∧ docChunks (runUpsertTx s d cs failAfter).1 d = docChunks s d) := by
  cases failAfter with
  | none => exact Or.inl (runUpsertTx_complete s d cs)
  | some k =>
    by_cases hk : k < (upsertSteps s d cs).length
    · right
      refine ⟨?_, ?_, ?_⟩ <;> simp [runUpsertTx, hk]
    · left
      have hlen : (upsertSteps s d cs).length
          = (mkRows d s.nextId s.clock cs).length + 1 := by
        simp [upsertSteps]
      simp [runUpsertTx, hk, upsertChunks, upsertSteps, foldl_append_singletons]
      omega

/-- Claim C2 (frame property of `upsertChunks`): the upsert deletes only the
chunks stored under `d`; for every other document name the stored chunk list is
unchanged. -/
theorem upsert_frame (s : Store) (d : String) (cs : List ChunkData) (d' : String)
    (h : d' ≠ d) : docChunks (upsertChunks s d cs) d' = docChunks s d' := by
  unfold docChunks upsertChunks
  rw [List.filter_append]
  have h2 : (mkRows d s.nextId s.clock cs).filter
      (fun c => decide (c.documentName = d')) = [] := by
    rw [List.filter_eq_nil_iff]
    intro c hc
    have hcd := mkRows_documentName d s.nextId s.clock cs c hc
    simp [hcd, Ne.symm h]
  rw [h2, List.append_nil, List.filter_filter]
  apply List.filter_congr
  intro c _
  by_cases hc : c.documentName = d'
  · simp [hc, h]
  · simp [hc]

/-- Witness for C2 at concrete inputs. -/
theorem upsert_frame_witness :
    docChunks (upsertChunks wStore "carfax" []) "manual" = docChunks wStore "manual" :=
  upsert_frame wStore "carfax" [] "manual" (by decide)

/-- Claim C3 (exclusion of unembedded chunks): every chunk returned by `search`
has a non-null embedding, for every query vector, filter set and `topK`. -/
theorem search_excludes_unembedded (s : Store) (q : List ℚ) (f : Filters) (k : Nat)
    (c : Chunk) (h : c ∈ search s q f k) : c.embedding.isSome = true := by
  unfold search at h
  have h1 := List.mem_of_mem_take h
  rw [List.mem_mergeSort, List.mem_filter] at h1
  exact ((Bool.and_eq_true _ _).mp h1.2).1

/-- Witness for C3: a concrete chunk retrieved from a concrete store. -/
theorem search_excludes_unembedded_witness :
    wcEngine ∈ search wStore2 [1, 0] noFilters 5 ∧ wcEngine.embedding.isSome = true := by
  have hm : wcEngine ∈ search wStore2 [1, 0] noFilters 5 := by
    simp [search, matchesFilters, noFilters, wStore2, wcEngine, wcNoEmbedding]
  exact ⟨hm, search_excludes_unembedded wStore2 [1, 0] noFilters 5 wcEngine hm⟩

/-- Claim C4 (idempotence of ingestion): ingesting the same document twice in
sequence leaves the document's stored chunk set identical to the set after the
first ingestion — the same pipeline-supplied contents in the same order, the
same count — and without duplicated chunks (all `chunkIndex`es distinct). -/
theorem ingest_idempotent (cfg : PipelineCfg) (s : Store) (doc : Document) :
    (docChunks (ingest cfg (ingest cfg s doc) doc) doc.name).map Chunk.data
        = (docChunks (ingest cfg s doc) doc.name).map Chunk.data
    ∧ (docChunks (ingest cfg (ingest cfg s doc) doc) doc.name).length
        = (docChunks (ingest cfg s doc) doc.name).length
    ∧ ((docChunks (ingest cfg (ingest cfg s doc) doc) doc.name).map
        (fun c => c.chunkIndex)).Nodup := by
  unfold ingest
  rw [docChunks_upsert_self, docChunks_upsert_self]
  refine ⟨?_, ?_, ?_⟩
  · rw [mkRows_map_data, mkRows_map_data]
  · simp [mkRows]
  · rw [mkRows_map_chunkIndex, pipelineChunks_map_chunkIndex]
    exact List.nodup_range _

/-- Claim C5 (ranking determinism): for every store, query vector, filter set
and `topK`, the result of `search` is sorted by descending cosine similarity to
the query vector, with equal-similarity ties broken by lower `chunkIndex`, then
lower `id` (`cosRank`).  `search` is a pure function of its arguments, so
repeated calls on an unchanged store return this same ordering. -/
theorem search_ranked_by_cosine (s : Store) (q : List ℚ) (f : Filters) (k : Nat) :
    List.Pairwise (cosRank q) (search s q f k) := by
  unfold search
  apply List.Pairwise.sublist (List.take_sublist _ _)
  apply List.Pairwise.imp (fun h => searchRank_imp_cosRank h)
  exact List.sorted_mergeSort (searchRank_trans q) (searchRank_total q) _

/-- Claim C6 (filter correctness): every chunk returned by `search` satisfies
all given filter constraints conjointly; in particular, with a topics filter
every requested topic is among the returned chunk's topics. -/
theorem search_filter_correct (s : Store) (q : List ℚ) (f : Filters) (k : Nat)
    (c : Chunk) (h : c ∈ search s q f k) :
    matchesFilters f c = true
    ∧ ∀ ts, f.topics = some ts → ∀ t ∈ ts, c.topics.contains t = true := by
  unfold search at h
  have h1 := List.mem_of_mem_take h
  rw [List.mem_mergeSort, List.mem_filter] at h1
  have hm : matchesFilters f c = true := ((Bool.and_eq_true _ _).mp h1.2).2
  refine ⟨hm, ?_⟩
  intro ts hts t htm
  have hm2 := hm
  unfold matchesFilters at hm2
  rw [hts] at hm2
  simp only [Bool.and_eq_true] at hm2
  have htop := hm2.1.1
  rw [List.all_eq_true] at htop
  exact htop t htm

/-- Witness for C6: a search filtered to the topic "engine" returns a chunk
carrying that topic. -/
theorem search_filter_correct_witness :
    wcEngine ∈ search wStore [1, 0] engineFilters 5
    ∧ wcEngine.topics.contains "engine" = true := by
  have hm : wcEngine ∈ search wStore [1, 0] engineFilters 5 := by
    simp [search, matchesFilters, engineFilters, wStore, wcEngine, wcNoEmbedding, wcTires]
  exact ⟨hm, (search_filter_correct wStore [1, 0] engineFilters 5 wcEngine hm).2
    ["engine"] rfl "engine" (by simp)⟩

/-- Claim C7 (no-match response): whenever the query embeds successfully but the
Retriever returns zero chunks, `ask` returns the explicit
"no relevant information found" response with no sources — the external LLM is
not consulted. -/
theorem ask_no_match (embedQuery : String → Option (List ℚ)) (llm : String → String)
    (maxContext : Nat) (s : Store) (query : String) (f : Filters) (topK : Nat)
    (qv : List ℚ) (h1 : embedQuery query = some qv)
    (h2 : search s qv f topK = []) :
    ask embedQuery llm maxContext s query f topK
      = Except.ok { answer := noRelevantInfoResponse, sources := [] } := by
  unfold ask
  rw [h1]
  show Except.ok (synthesize llm maxContext query (search s qv f topK))
    = Except.ok { answer := noRelevantInfoResponse, sources := [] }
  rw [h2]
  rfl

/-- Witness for C7: an unrelated query against the empty store. -/
theorem ask_no_match_witness :
    ask (fun _ => some [1]) (fun _ => "llm output") 1000 emptyStore "unrelated query"
        noFilters 5
      = Except.ok { answer := noRelevantInfoResponse, sources := [] } := by
  refine ask_no_match (fun _ => some [1]) (fun _ => "llm output") 1000 emptyStore
    "unrelated query" noFilters 5 [1] rfl ?_
  simp [search, emptyStore]

/-- Claim C8 (uniqueness of `(documentName, chunkIndex)`): in every store
reachable by pipeline ingestion, no two stored chunks share the same
`(documentName, chunkIndex)` pair. -/
theorem reachable_chunkIndex_unique (s : Store) (h : Reachable s) :
    (s.rows.map fun c => (c.documentName, c.chunkIndex)).Nodup := by
  induction h with
  | empty => simp [emptyStore]
  | step cfg doc s hs ih =>
    have hrows : (ingest cfg s doc).rows
        = s.rows.filter (fun c => c.documentName ≠ doc.name)
          ++ mkRows doc.name s.nextId s.clock (pipelineChunks cfg doc.dtype doc.text) := rfl
    rw [hrows, List.map_append]
    apply List.Nodup.append
    · exact List.Nodup.sublist ((List.filter_sublist _).map _) ih
    · rw [mkRows_map_key, pipelineChunks_map_chunkIndex]
      refine List.Nodup.map ?_ (List.nodup_range _)
      intro i j hij
      simpa using congrArg Prod.snd hij
    · intro x hx1 hx2
      rw [List.mem_map] at hx1 hx2
      obtain ⟨c1, hc1, rfl⟩ := hx1
      obtain ⟨c2, hc2, heq⟩ := hx2
      rw [List.mem_filter] at hc1
      have hne : c1.documentName ≠ doc.name := by simpa using hc1.2
      have hc2d : c2.documentName = doc.name :=
        mkRows_documentName doc.name s.nextId s.clock _ c2 hc2
      apply hne
      have hfst := congrArg Prod.fst heq
      simpa [hc2d] using hfst.symm

/-- Witness for C8: the store after one concrete ingestion is reachable and
satisfies the invariant. -/
theorem reachable_chunkIndex_unique_witness :
    ((ingest wCfg emptyStore wDoc).rows.map fun c => (c.documentName, c.chunkIndex)).Nodup :=
  reachable_chunkIndex_unique (ingest wCfg emptyStore wDoc)
    (Reachable.step wCfg wDoc emptyStore Reachable.empty)

/-- Claim C9 (non-PDF selection rejected): selecting a file whose name does not
end in ".pdf" (case-insensitively) issues no import request, sets the error
state to "Please select a PDF file", and leaves the previous import result
unchanged. -/
theorem carfax_nonpdf_rejected (st : CarfaxState) (f : SelectedFile)
    (h : isPdfFileName f.name = false) :
    (handleFileSelect st (some f)).2 = none
    ∧ (handleFileSelect st (some f)).1.error = some "Please select a PDF file"
    ∧ (handleFileSelect st (some f)).1.importResult = st.importResult := by
  simp [handleFileSelect, h]

/-- Witness for C9: a concrete non-PDF selection with a prior successfully
imported result in place. -/
theorem carfax_nonpdf_rejected_witness :
    (handleFileSelect ⟨some wImport, none, "v"⟩ (some ⟨"carfax_report.txt"⟩)).2 = none
    ∧ (handleFileSelect ⟨some wImport, none, "v"⟩
        (some ⟨"carfax_report.txt"⟩)).1.error = some "Please select a PDF file"
    ∧ (handleFileSelect ⟨some wImport, none, "v"⟩
        (some ⟨"carfax_report.txt"⟩)).1.importResult = some wImport := by
  have h := carfax_nonpdf_rejected ⟨some wImport, none, "v"⟩ ⟨"carfax_report.txt"⟩
    (by decide)
  exact ⟨h.1, h.2.1, h.2.2⟩

/-- Claim C10 (success and error states are mutually exclusive after a completed
mutation): a successful import sets the result and clears the error (and clears
the file input); a failed import sets the error and clears the result; hence
after any completed mutation at most one of the two is populated, so the success
summary and the error message are never rendered together. -/
theorem carfax_result_error_exclusive (st : CarfaxState) :
    (∀ data, completeImportMutation st (Except.ok data)
        = { importResult := some data, error := none, fileInputValue := "" })
    ∧ (∀ message, completeImportMutation st (Except.error message)
        = { importResult := none, error := some message,
            fileInputValue := st.fileInputValue })
    ∧ ∀ outcome, (completeImportMutation st outcome).importResult = none
        ∨ (completeImportMutation st outcome).error = none := by
  refine ⟨fun data => rfl, fun message => rfl, fun outcome => ?_⟩
  cases outcome with
  | ok data => exact Or.inr rfl
  | error message => exact Or.inl rfl
